import Mathlib

set_option maxRecDepth 10000

/-!
Verification development for the real-time lip-sync avatar pipeline
(`wav2lip_avatar` + `webrtc_avatar` + TTS streaming subsystem) of the
edge-developer-kit-reference-scripts repository.

Shallow embedding conventions:
* Python non-negative ints are `ℕ`; `//` is `Nat.div`, `%` is `Nat.mod`.
* Audio samples are modelled as `ℚ` (the float contents are opaque to the
  slicing / tagging logic under verification; only list structure matters).
* Wall-clock times are `ℚ` seconds.
* External collaborators (the neural model, `cv2.resize`, the mel
  spectrogram, caption text rendering) are parameters of the definitions
  that call them, per the spec's scope (spec.md section 1).
-/

namespace EdgeLipsync

/-! Constants, from `modules/base/constants.py` (class CONSTANTS). -/

def AUDIO_FPS : ℕ := 25

def AUDIO_SAMPLE_RATE : ℕ := 16000

def AUDIO_CHUNK_SIZE : ℕ := AUDIO_SAMPLE_RATE / AUDIO_FPS / 2

def VIDEO_CLOCK_RATE : ℕ := 90000

def VIDEO_PTIME : ℚ := 0.040

def AUDIO_PTIME : ℚ := 0.020

/-- Speech/adapter state machine values, from `modules/base/tts.py`
(`class AudioState(Enum)`). -/
inductive AudioState where
  | RUNNING
  | PAUSE
  | TALKING
  | SILENT
deriving DecidableEq, Repr

/-- Triangle-wave index mapping, from `modules/base/avatar.py`,
`Avatar.reflection(self, size, index)`:
`res = index % size; return res if (index // size) % 2 == 0 else size - res - 1`. -/
def reflection (size index : ℕ) : ℕ :=
  let res := index % size
  if (index / size) % 2 = 0 then res else size - res - 1

/-- On the first `size` indices the division `index / size` is zero. -/
theorem reflection_eq_of_lt {size index : ℕ} (h : index < size) :
    reflection size index = index := by
  unfold reflection
  rw [Nat.div_eq_of_lt h, Nat.mod_eq_of_lt h]
  simp

/-- On the second `size` indices the division `index / size` is one. -/
theorem reflection_eq_of_ge {size index : ℕ} (h1 : size ≤ index)
    (h2 : index < 2 * size) : reflection size index = size - (index - size) - 1 := by
  unfold reflection
  have hdiv : index / size = 1 := by
    apply Nat.div_eq_of_lt_le
    · simpa using h1
    · simpa [two_mul] using h2
  have hmod : index % size = index - size := by
    rw [Nat.mod_eq_sub_mod h1]
    exact Nat.mod_eq_of_lt (by omega)
  rw [hdiv, hmod]
  simp

/-- Adding a full back-and-forth period `2 * size` leaves the value unchanged. -/
theorem reflection_period (size index : ℕ) (hN : 0 < size) :
    reflection size (index + 2 * size) = reflection size index := by
  unfold reflection
  have hmod : (index + 2 * size) % size = index % size := by
    rw [mul_comm]
    exact Nat.add_mul_mod_self_left index size 2
  have hdiv : (index + 2 * size) / size = index / size + 2 := by
    rw [mul_comm]
    exact Nat.add_mul_div_left index 2 hN
  rw [hmod, hdiv, Nat.add_mod_right]

/-- C1. The reflection (triangle-wave) index function `Avatar.reflection(size, index)`
satisfies for every `N > 0` and `i ≥ 0`: it equals `i mod N` when `i div N` is even
and `N - (i mod N) - 1` otherwise; its result lies in `[0, N)`; it is deterministic;
the sequence has period `2N`, strictly increasing on the first half-period and
strictly decreasing on the second; and for `N = 5` the values at `i = 4, 5, 9, 10`
are `4, 4, 0, 0`. -/
theorem reflection_spec (N i : ℕ) (hN : 0 < N) :
    reflection N i = (if (i / N) % 2 = 0 then i % N else N - i % N - 1)
    ∧ reflection N i < N
    ∧ reflection N i = reflection N i
    ∧ reflection N (i + 2 * N) = reflection N i
    ∧ (i + 1 < N → reflection N i < reflection N (i + 1))
    ∧ (N ≤ i → i + 1 < 2 * N → reflection N (i + 1) < reflection N i)
    ∧ reflection 5 4 = 4 ∧ reflection 5 5 = 4
    ∧ reflection 5 9 = 0 ∧ reflection 5 10 = 0 := by
  refine ⟨rfl, ?_, rfl, reflection_period N i hN, ?_, ?_, by decide, by decide,
    by decide, by decide⟩
  · unfold reflection
    have hmod : i % N < N := Nat.mod_lt i hN
    by_cases h : (i / N) % 2 = 0 <;> simp [h] <;> omega
  · intro h
    rw [reflection_eq_of_lt (by omega), reflection_eq_of_lt h]
    omega
  · intro h1 h2
    rw [reflection_eq_of_ge h1 (by omega), reflection_eq_of_ge (by omega) h2]
    omega

/-- Witness for `reflection_spec` at `N = 5`, `i = 3` (both monotonicity
hypotheses dischargeable nearby are exercised through the bundle). -/
theorem reflection_spec_witness :
    0 < 5 ∧ reflection 5 (3 + 2 * 5) = reflection 5 3 :=
  ⟨by decide, (reflection_spec 5 3 (by decide)).2.2.2.1⟩

/-! TTS streaming adapters, from `modules/texttospeech/kokoro_tts.py` and
`modules/texttospeech/openaicompatible_tts.py`, method `stream_tts`.
Both receive the resampled stream (output of `resampy.resample`, external)
and slice it with
`while stream_length >= self.chunk_size: put(stream[index:index+chunk_size])`;
the OpenAI-compatible variant additionally emits, when `stream_length > 0`
remains, a final `remaining_chunk` of `chunk_size` zeros whose prefix is the
leftover samples; the Kokoro variant has no such branch and the leftover
samples of each resampled stream are never enqueued. -/

/-- Pieces enqueued by `KokoroTTSModule.stream_tts` for one resampled stream
(kokoro_tts.py lines 97-103): whole `chunk_size`-sample pieces only. -/
def kokoro_stream_slices (cs : ℕ) (s : List ℚ) : List (List ℚ) :=
  if h : 0 < cs ∧ cs ≤ s.length then
    s.take cs :: kokoro_stream_slices cs (s.drop cs)
  else []
termination_by s.length
decreasing_by simp; omega

/-- Pieces enqueued by `OpenAICompatibleTTSModule.stream_tts` for one resampled
stream (openaicompatible_tts.py lines 97-112): whole pieces, then the
zero-padded remainder when one exists. -/
def openai_stream_slices (cs : ℕ) (s : List ℚ) : List (List ℚ) :=
  if h : 0 < cs ∧ cs ≤ s.length then
    s.take cs :: openai_stream_slices cs (s.drop cs)
  else if 0 < s.length ∧ 0 < cs then
    [s ++ List.replicate (cs - s.length) 0]
  else []
termination_by s.length
decreasing_by simp; omega

/-- The Kokoro slicer emits exactly the first `cs * (length / cs)` samples:
the `length mod cs` leftover samples are dropped. -/
theorem kokoro_stream_slices_join (cs : ℕ) (s : List ℚ) :
    (kokoro_stream_slices cs s).flatten = s.take (cs * (s.length / cs)) := by
  rw [kokoro_stream_slices]
  split
  · rename_i h
    have ih := kokoro_stream_slices_join cs (s.drop cs)
    rw [List.flatten_cons, ih, List.length_drop,
      Nat.div_eq_sub_div h.1 h.2, Nat.mul_add, Nat.mul_one,
      Nat.add_comm (cs * _) cs, List.take_add]
  · rename_i h
    push_neg at h
    rcases Nat.eq_zero_or_pos cs with h0 | h0
    · simp [h0]
    · rw [Nat.div_eq_of_lt (h h0)]
      simp
termination_by s.length
decreasing_by simp; omega

/-- Every piece the Kokoro slicer emits has exactly `cs` samples. -/
theorem kokoro_stream_slices_sizes (cs : ℕ) (s : List ℚ) :
    ∀ p ∈ kokoro_stream_slices cs s, p.length = cs := by
  rw [kokoro_stream_slices]
  split
  · rename_i h
    intro p hp
    rcases List.mem_cons.1 hp with h1 | h1
    · subst h1
      simp [List.length_take]
      omega
    · exact kokoro_stream_slices_sizes cs (s.drop cs) p h1
  · intro p hp
    simp at hp
termination_by s.length
decreasing_by simp; omega

/-- The OpenAI-compatible slicer emits the whole stream followed by some
zero padding. -/
theorem openai_stream_slices_join (cs : ℕ) (s : List ℚ) (hcs : 0 < cs) :
    ∃ k, (openai_stream_slices cs s).flatten = s ++ List.replicate k 0 := by
  rw [openai_stream_slices]
  split
  · rename_i h
    obtain ⟨k, ih⟩ := openai_stream_slices_join cs (s.drop cs) hcs
    refine ⟨k, ?_⟩
    rw [List.flatten_cons, ih, ← List.append_assoc, List.take_append_drop]
  · split
    · exact ⟨cs - s.length, by simp⟩
    · rename_i h1 h2
      refine ⟨0, ?_⟩
      have : s.length = 0 := by
        rcases Nat.eq_zero_or_pos s.length with h0 | h0
        · exact h0
        · exact absurd ⟨h0, hcs⟩ h2
      simp [List.eq_nil_of_length_eq_zero this]
termination_by s.length
decreasing_by simp; omega

/-- Every piece the OpenAI-compatible slicer emits has exactly `cs` samples. -/
theorem openai_stream_slices_sizes (cs : ℕ) (s : List ℚ) :
    ∀ p ∈ openai_stream_slices cs s, p.length = cs := by
  rw [openai_stream_slices]
  split
  · rename_i h
    intro p hp
    rcases List.mem_cons.1 hp with h1 | h1
    · subst h1
      simp [List.length_take]
      omega
    · exact openai_stream_slices_sizes cs (s.drop cs) p h1
  · split
    · rename_i hng h
      intro p hp
      simp at hp
      subst hp
      push_neg at hng
      have := hng h.2
      simp
      omega
    · intro p hp
      simp at hp
termination_by s.length
decreasing_by simp; omega

/-- C3 counterexample: with the actual `audioChunkSize = 320`
(`CONSTANTS.AUDIO_CHUNK_SIZE`), a resampled stream of 321 samples fed to
`KokoroTTSModule.stream_tts` emits a single whole piece; the concatenation of
the emitted pieces (there is no zero-padded remainder piece to exclude) has
only 320 samples and does not reproduce the resampled signal: the final
sample is discarded, contradicting the claim that `stream_tts` zero-pads the
final partial piece and discards no samples. -/
theorem kokoro_discards_tail_cex :
    (kokoro_stream_slices AUDIO_CHUNK_SIZE (List.replicate 321 (1 : ℚ))).flatten
        ≠ List.replicate 321 (1 : ℚ)
    ∧ ((kokoro_stream_slices AUDIO_CHUNK_SIZE
        (List.replicate 321 (1 : ℚ))).flatten).length = 320 := by
  have hcs : AUDIO_CHUNK_SIZE = 320 := rfl
  have h := kokoro_stream_slices_join AUDIO_CHUNK_SIZE (List.replicate 321 (1 : ℚ))
  rw [hcs] at h ⊢
  have hlen : (List.replicate 321 (1 : ℚ)).length = 321 := by simp
  rw [hlen] at h
  have h321 : (320 : ℕ) * (321 / 320) = 320 := by norm_num
  rw [h321, List.take_replicate] at h
  constructor
  · intro heq
    have := congrArg List.length heq
    rw [h] at this
    simp at this
  · rw [h]
    simp

/-- C3 amended: the OpenAI-compatible `stream_tts` slices each resampled
stream into pieces of exactly `audioChunkSize` samples, zero-padding the final
partial piece, so that the concatenation of the emitted pieces truncated to
the stream length reproduces the resampled signal exactly and no sample is
discarded; the Kokoro `stream_tts` emits whole pieces only and discards the
final `length mod audioChunkSize` samples of each resampled stream. -/
theorem stream_tts_slice_amended (cs : ℕ) (s : List ℚ) (hcs : 0 < cs) :
    ((openai_stream_slices cs s).flatten).take s.length = s
    ∧ s.length ≤ ((openai_stream_slices cs s).flatten).length
    ∧ (∀ p ∈ openai_stream_slices cs s, p.length = cs)
    ∧ (kokoro_stream_slices cs s).flatten = s.take (cs * (s.length / cs))
    ∧ (∀ p ∈ kokoro_stream_slices cs s, p.length = cs) := by
  obtain ⟨k, hj⟩ := openai_stream_slices_join cs s hcs
  refine ⟨?_, ?_, openai_stream_slices_sizes cs s,
    kokoro_stream_slices_join cs s, kokoro_stream_slices_sizes cs s⟩
  · rw [hj]
    exact List.take_left s _
  · rw [hj]
    simp

/-- Witness for `stream_tts_slice_amended` at `cs = 2` and a concrete
3-sample stream. -/
theorem stream_tts_slice_amended_witness :
    0 < 2 ∧ ((openai_stream_slices 2 [(1 : ℚ), 2, 3]).flatten).take 3 = [1, 2, 3] :=
  ⟨by decide, by
    have h := (stream_tts_slice_amended 2 [(1 : ℚ), 2, 3] (by decide)).1
    simpa using h⟩

/-! Audio ingestion and mel feature stage, from
`modules/lipsync/wav2lip/wav2lip_avatar.py`: `Wav2lipAvatar.__init__`
(strides, `audio_fps`), `process_audio_to_mel_chunks` (lines 300-331) and
`text_to_speech` (lines 333-372). -/

/-- From `Wav2lipAvatar.__init__`: `self.audio_left_stride = 2`. -/
def audio_left_stride : ℕ := 2

/-- From `Wav2lipAvatar.__init__`: `self.audio_right_stride = 2`. -/
def audio_right_stride : ℕ := 2

/-- From `Wav2lipAvatar.__init__`: `self.audio_fps = CONSTANTS.AUDIO_FPS * 2`. -/
def audio_fps : ℕ := AUDIO_FPS * 2

/-- The offset `left = max(0, self.audio_left_stride * 80 / self.audio_fps)`
(Python float arithmetic; modelled over `ℚ` — the IEEE doubles computed for
`160 / 50` agree with the exact rational `16/5` in every floor taken below
for all reachable window indices). -/
def mel_left : ℚ := max 0 ((audio_left_stride : ℚ) * 80 / (audio_fps : ℚ))

/-- The per-window step `mel_idx_multiplier = 80.0 * 2 / self.audio_fps`. -/
def mel_idx_multiplier : ℚ := 80 * 2 / (audio_fps : ℚ)

/-- The window start `start_idx = int(left + i * mel_idx_multiplier)`
(`int` truncation on a non-negative value is the floor). -/
def mel_start_idx (i : ℕ) : ℕ := (⌊mel_left + (i : ℚ) * mel_idx_multiplier⌋).toNat

/-- Closed natural-number form of the window start index. -/
theorem mel_start_idx_eq (i : ℕ) : mel_start_idx i = (16 * i + 16) / 5 := by
  have hq : mel_left + (i : ℚ) * mel_idx_multiplier = ((16 * i + 16 : ℕ) : ℚ) / 5 := by
    unfold mel_left mel_idx_multiplier audio_left_stride audio_fps AUDIO_FPS
    rw [max_eq_right (by positivity)]
    push_cast
    ring
  have hfloor : ⌊mel_left + (i : ℚ) * mel_idx_multiplier⌋
      = (((16 * i + 16) / 5 : ℕ) : ℤ) := by
    rw [hq, Int.floor_eq_iff]
    constructor
    · rw [le_div_iff (by norm_num : (0 : ℚ) < 5)]
      exact_mod_cast Nat.div_mul_le_self (16 * i + 16) 5
    · rw [div_lt_iff (by norm_num : (0 : ℚ) < 5)]
      exact_mod_cast (by omega : (16 * i + 16) < ((16 * i + 16) / 5 + 1) * 5)
  unfold mel_start_idx
  rw [hfloor]
  exact Int.toNat_natCast _

/-- Mel-window slicing, from `Wav2lipAvatar.process_audio_to_mel_chunks`
(lines 300-331). The external `audio256.melspectrogram(inputs)` is passed in
as `melspectrogram`; the mel array `mel[80][T]` is represented transposed, as
the list of its `T` time frames, so Python `mel[:, a:b]` is
`(mel.drop a).take (b - a)` and `len(mel[0])` is `mel.length`.
The loop `while i < (len(audio_frames) - left_stride - right_stride) / 2`
(Python true division) runs for `i = 0, 1, ...` while `2 * i < n - 4`; for
`n > 4` the iteration count equals `(n - 3) / 2` in natural division. -/
def process_audio_to_mel_chunks (melspectrogram : List ℚ → List (List ℚ))
    (audio_frames : List (List ℚ)) : List (List (List ℚ)) :=
  if audio_frames.length ≤ audio_left_stride + audio_right_stride then []
  else
    let mel := melspectrogram audio_frames.flatten
    (List.range ((audio_frames.length - 3) / 2)).map (fun i =>
      let start_idx := mel_start_idx i
      if start_idx + 16 > mel.length then
        mel.drop (mel.length - 16)
      else
        (mel.drop start_idx).take 16)

/-- One `(audio_frame, metadata)` entry of the avatar's `audio_input_queue`,
as enqueued by `stream_tts`. Metadata dictionaries are opaque to the
pipeline and modelled as an `Option ℕ` token. -/
structure InChunk where
  samples : List ℚ
  metadata : Option ℕ
deriving DecidableEq, Repr

/-- One `(audio_frame, state, metadata)` tuple of the `audio_output_queue`. -/
structure OutChunk where
  samples : List ℚ
  state : AudioState
  metadata : Option ℕ
deriving DecidableEq, Repr

/-- The synthetic substitute
`(np.zeros(self.audio_chunk_size, dtype=np.float32), None), AudioState.SILENT`. -/
def silent_chunk (cs : ℕ) : OutChunk := ⟨List.replicate cs 0, .SILENT, none⟩

/-- One non-blocking read in `text_to_speech`:
`self.audio_input_queue.get(block=False, timeout=1)` tagged
`AudioState.TALKING` on success, with the silent substitute on the empty
queue (the `except` branch). -/
def tts_pull (cs : ℕ) : List InChunk → OutChunk × List InChunk
  | [] => (silent_chunk cs, [])
  | c :: rest => (⟨c.samples, .TALKING, c.metadata⟩, rest)

/-- The `for _ in range(self.batch_size * 2)` read loop of the non-flush
branch of `text_to_speech`. -/
def tts_pull_loop (cs slots : ℕ) (q : List InChunk) : List OutChunk × List InChunk :=
  match slots with
  | 0 => ([], q)
  | n + 1 =>
    let r := tts_pull cs q
    let rest := tts_pull_loop cs n r.2
    (r.1 :: rest.1, rest.2)

/-- Per-tick mutable avatar state touched by `text_to_speech`
(`Wav2lipAvatar` attributes). Queues are modelled as the lists of their
elements, head first; `audio_feature_queue` capacity (2) is treated in the
bounded-queue model below, the tick itself appends the produced batch. -/
structure TickState where
  audio_input_queue : List InChunk
  audio_frames : List (List ℚ)
  audio_feature_queue : List (List (List (List ℚ)))
  stop_infer : Bool
deriving Repr

/-- One pass of `Wav2lipAvatar.text_to_speech` (lines 333-372). The flush
branch (`stop_infer == True`) clears the audio-in queue, emits
`batch_size * 2` synthetic silent chunks and resets the flag; the normal
branch performs `batch_size * 2` reads, tagging every dequeued chunk
`TALKING` and substituting silent chunks when the queue runs empty. Every
chunk is appended to the rolling `audio_frames` buffer; when
`process_audio_to_mel_chunks` returns a non-empty batch it is enqueued and
the buffer is cut to its last `audio_left_stride + audio_right_stride`
entries (`self.audio_frames[-(l + r):]`). The returned list is what the
tick put on `audio_output_queue`. -/
def tick_pull (bs cs : ℕ) (st : TickState) : List OutChunk × TickState :=
  if st.stop_infer then
    (List.replicate (bs * 2) (silent_chunk cs),
      { st with audio_input_queue := [], stop_infer := false })
  else
    let r := tts_pull_loop cs (bs * 2) st.audio_input_queue
    (r.1, { st with audio_input_queue := r.2 })

/-- The per-tick rolling buffer after the appends of this tick
(`self.audio_frames.append(audio_frame)` for each slot). -/
def tick_frames (bs cs : ℕ) (st : TickState) : List (List ℚ) :=
  (tick_pull bs cs st).2.audio_frames ++ ((tick_pull bs cs st).1).map (·.samples)

def text_to_speech (bs cs : ℕ) (melspectrogram : List ℚ → List (List ℚ))
    (st : TickState) : TickState × List OutChunk :=
  let pulled := tick_pull bs cs st
  let st1 := pulled.2
  let frames := tick_frames bs cs st
  let mel_chunks := process_audio_to_mel_chunks melspectrogram frames
  if mel_chunks ≠ [] then
    ({ st1 with
        audio_frames :=
          frames.drop (frames.length - (audio_left_stride + audio_right_stride)),
        audio_feature_queue := st1.audio_feature_queue ++ [mel_chunks] },
      pulled.1)
  else
    ({ st1 with audio_frames := frames }, pulled.1)

/-- Characterisation of the dequeue loop: the first `min n q.length` slots
receive the queued chunks in order, tagged `TALKING`; the remaining slots
receive the silent substitute; the first `n` queue entries are consumed. -/
theorem tts_pull_loop_spec (cs : ℕ) : ∀ (n : ℕ) (q : List InChunk),
    (tts_pull_loop cs n q).1
      = (q.take n).map (fun c => ⟨c.samples, .TALKING, c.metadata⟩)
        ++ List.replicate (n - q.length) (silent_chunk cs)
    ∧ (tts_pull_loop cs n q).2 = q.drop n := by
  intro n
  induction n with
  | zero => intro q; simp [tts_pull_loop]
  | succ n ih =>
    intro q
    cases q with
    | nil =>
      have h := ih []
      simp [tts_pull_loop, tts_pull, h.1, h.2, List.replicate_succ]
    | cons c rest =>
      have h := ih rest
      simp [tts_pull_loop, tts_pull, h.1, h.2, Nat.succ_sub_succ]

/-- The tick's emissions: silent batch in flush mode, otherwise the dequeue
loop's output (both branches of the trailing mel `if` return `pulled.1`). -/
theorem text_to_speech_outputs (bs cs : ℕ)
    (melspectrogram : List ℚ → List (List ℚ)) (st : TickState) :
    (text_to_speech bs cs melspectrogram st).2
      = if st.stop_infer then List.replicate (bs * 2) (silent_chunk cs)
        else (tts_pull_loop cs (bs * 2) st.audio_input_queue).1 := by
  have hp : (tick_pull bs cs st).1
      = if st.stop_infer then List.replicate (bs * 2) (silent_chunk cs)
        else (tts_pull_loop cs (bs * 2) st.audio_input_queue).1 := by
    unfold tick_pull
    split <;> rfl
  unfold text_to_speech
  dsimp only
  rw [← hp]
  split <;> rfl

/-- C5. The mel feature stage produces windows only when the rolling audio
buffer holds strictly more than `leftStride + rightStride` chunks (otherwise
it returns the empty list); each produced window is 16 mel-frames wide with
start index `floor(max(0, leftStride * 80 / audioFps) + i * (160 / audioFps))`
for the i-th window, clamped so that a window overrunning the mel buffer is
taken from its last 16 frames; and after a non-empty batch is enqueued the
rolling buffer is trimmed to exactly its last `leftStride + rightStride`
chunks. -/
theorem mel_stage_spec (melspectrogram : List ℚ → List (List ℚ))
    (audio_frames : List (List ℚ)) (bs cs : ℕ) (st : TickState)
    (hmel : 16 ≤ (melspectrogram audio_frames.flatten).length) :
    (audio_frames.length ≤ audio_left_stride + audio_right_stride →
      process_audio_to_mel_chunks melspectrogram audio_frames = [])
    ∧ (∀ i w,
        (process_audio_to_mel_chunks melspectrogram audio_frames)[i]? = some w →
        w = (let mel := melspectrogram audio_frames.flatten
             if mel_start_idx i + 16 > mel.length then mel.drop (mel.length - 16)
             else (mel.drop (mel_start_idx i)).take 16)
        ∧ w.length = 16
        ∧ mel_start_idx i = (16 * i + 16) / 5)
    ∧ ((text_to_speech bs cs melspectrogram st).1.audio_feature_queue
          ≠ st.audio_feature_queue →
        ∃ frames : List (List ℚ),
          (text_to_speech bs cs melspectrogram st).1.audio_feature_queue
            = st.audio_feature_queue
              ++ [process_audio_to_mel_chunks melspectrogram frames]
          ∧ (text_to_speech bs cs melspectrogram st).1.audio_frames
            = frames.drop
                (frames.length - (audio_left_stride + audio_right_stride))
          ∧ (text_to_speech bs cs melspectrogram st).1.audio_frames.length
            = audio_left_stride + audio_right_stride
          ∧ frames.take (frames.length - (audio_left_stride + audio_right_stride))
              ++ (text_to_speech bs cs melspectrogram st).1.audio_frames
            = frames) := by
  refine ⟨?_, ?_, ?_⟩
  · intro h
    unfold process_audio_to_mel_chunks
    simp [h]
  · intro i w hw
    unfold process_audio_to_mel_chunks at hw
    by_cases h : audio_frames.length ≤ audio_left_stride + audio_right_stride
    · simp [h] at hw
    · rw [if_neg h] at hw
      rw [List.getElem?_eq_some] at hw
      obtain ⟨hi, hw⟩ := hw
      simp only [List.getElem_map, List.getElem_range] at hw
      subst hw
      refine ⟨rfl, ?_, mel_start_idx_eq i⟩
      set mel := melspectrogram audio_frames.flatten with hmeldef
      by_cases hc : mel_start_idx i + 16 > mel.length
      · simp only [if_pos hc]
        rw [List.length_drop]
        omega
      · simp only [if_neg hc]
        rw [List.length_take, List.length_drop]
        omega
  · intro hq
    have hfq : (tick_pull bs cs st).2.audio_feature_queue
        = st.audio_feature_queue := by
      unfold tick_pull
      split <;> rfl
    by_cases hmc :
        process_audio_to_mel_chunks melspectrogram (tick_frames bs cs st) ≠ []
    · have hlong : ¬ (tick_frames bs cs st).length
          ≤ audio_left_stride + audio_right_stride := by
        intro hle
        apply hmc
        unfold process_audio_to_mel_chunks
        simp [hle]
      refine ⟨tick_frames bs cs st, ?_, ?_, ?_, ?_⟩
      · simp only [text_to_speech, if_pos hmc, hfq]
      · simp only [text_to_speech, if_pos hmc]
      · simp only [text_to_speech, if_pos hmc, List.length_drop]
        omega
      · simp only [text_to_speech, if_pos hmc]
        exact List.take_append_drop _ _
    · exact absurd (by simp only [text_to_speech, if_neg hmc, hfq]) hq

/-- Witness for `mel_stage_spec`: a 3-chunk buffer (not exceeding the stride
context of 4) yields no windows. -/
theorem mel_stage_spec_witness :
    16 ≤ ((fun _ : List ℚ => List.replicate 20 ([] : List ℚ))
        (List.replicate 3 ([] : List ℚ)).flatten).length
    ∧ process_audio_to_mel_chunks (fun _ => List.replicate 20 [])
        (List.replicate 3 []) = [] := by
  refine ⟨by simp, ?_⟩
  exact (mel_stage_spec (fun _ => List.replicate 20 [])
    (List.replicate 3 []) 1 1 ⟨[], [], [], false⟩ (by simp)).1 (by simp [audio_left_stride, audio_right_stride])

/-- Everything one `stream_tts` call enqueues onto the avatar's audio-in
queue for one utterance (OpenAI-compatible variant, openaicompatible_tts.py
lines 86-115): the slices of each resampled stream in order, then the final
flush entry `(np.zeros(self.chunk_size, np.float32), metadata)`. -/
def openai_stream_tts_queue (cs : ℕ) (streams : List (List ℚ))
    (metadata : Option ℕ) : List InChunk :=
  (streams.map (fun s =>
      (openai_stream_slices cs s).map (fun p => InChunk.mk p metadata))).flatten
    ++ [⟨List.replicate cs 0, metadata⟩]

/-- C4 counterexample: an utterance producing one 4-sample resampled stream,
with `batch_size = 1` and `chunk_size = 4`, places two entries on the
audio-in queue — the speech piece and the final all-zero flush chunk.
The `text_to_speech` tick dequeues both and tags *both* `TALKING`
(`wav2lip_avatar.py` lines 350-355 tag every successfully dequeued chunk),
so the final all-zero flush chunk reaches the audio-out stage tagged
`TALKING`, refuting the claim that it is not tagged `TALKING`. -/
theorem flush_chunk_tagged_talking_cex :
    openai_stream_tts_queue 4 [[1, 1, 1, 1]] (some 7)
      = [⟨[1, 1, 1, 1], some 7⟩, ⟨[0, 0, 0, 0], some 7⟩]
    ∧ (text_to_speech 1 4 (fun _ => [])
        ⟨openai_stream_tts_queue 4 [[1, 1, 1, 1]] (some 7), [], [], false⟩).2
      = [⟨[1, 1, 1, 1], .TALKING, some 7⟩, ⟨[0, 0, 0, 0], .TALKING, some 7⟩] := by
  have h1 : openai_stream_tts_queue 4 [[1, 1, 1, 1]] (some 7)
      = [⟨[1, 1, 1, 1], some 7⟩, ⟨[0, 0, 0, 0], some 7⟩] := by
    rw [openai_stream_tts_queue]
    simp only [List.map_cons, List.map_nil]
    rw [openai_stream_slices.eq_def]
    norm_num
    rw [openai_stream_slices.eq_def]
    norm_num [List.replicate]
  refine ⟨h1, ?_⟩
  rw [text_to_speech_outputs, h1]
  norm_num [tts_pull_loop, tts_pull, silent_chunk]

/-- C4 amended: in a non-flush tick every chunk dequeued from the audio-in
queue reaches the audio-out stage tagged `TALKING` — including the final
all-zero flush chunk appended at end-of-utterance, which is distinguished
only by its zero samples, not by its tag — and every slot served from an
empty queue is a synthetic all-zero chunk tagged `SILENT`. -/
theorem text_to_speech_tagging_amended (bs cs : ℕ)
    (melspectrogram : List ℚ → List (List ℚ)) (st : TickState)
    (h : st.stop_infer = false) :
    (text_to_speech bs cs melspectrogram st).2
      = (st.audio_input_queue.take (bs * 2)).map
          (fun c => ⟨c.samples, .TALKING, c.metadata⟩)
        ++ List.replicate (bs * 2 - st.audio_input_queue.length) (silent_chunk cs)
    ∧ (∀ c ∈ (text_to_speech bs cs melspectrogram st).2,
        c.state = .TALKING ∨ c = silent_chunk cs)
    ∧ (∀ j c, st.audio_input_queue[j]? = some c → j < bs * 2 →
        (text_to_speech bs cs melspectrogram st).2[j]?
          = some ⟨c.samples, .TALKING, c.metadata⟩) := by
  have houts : (text_to_speech bs cs melspectrogram st).2
      = (st.audio_input_queue.take (bs * 2)).map
          (fun c => ⟨c.samples, .TALKING, c.metadata⟩)
        ++ List.replicate (bs * 2 - st.audio_input_queue.length)
            (silent_chunk cs) := by
    rw [text_to_speech_outputs, if_neg (by simp [h])]
    exact (tts_pull_loop_spec cs (bs * 2) st.audio_input_queue).1
  refine ⟨houts, ?_, ?_⟩
  · intro c hc
    rw [houts] at hc
    rcases List.mem_append.1 hc with h1 | h1
    · obtain ⟨d, _, rfl⟩ := List.mem_map.1 h1
      exact Or.inl rfl
    · exact Or.inr (List.eq_of_mem_replicate h1)
  · intro j c hjc hj
    obtain ⟨hjlen, -⟩ := List.getElem?_eq_some.1 hjc
    rw [houts, List.getElem?_append]
    rw [if_pos (by simp only [List.length_map, List.length_take]; omega)]
    rw [List.getElem?_map, List.getElem?_take, if_pos hj, hjc]
    rfl

/-- Witness for `text_to_speech_tagging_amended` at a concrete one-entry
queue. -/
theorem text_to_speech_tagging_amended_witness :
    (⟨[⟨[5, 6], some 3⟩], [], [], false⟩ : TickState).stop_infer = false
    ∧ (text_to_speech 1 2 (fun _ => [])
        ⟨[⟨[5, 6], some 3⟩], [], [], false⟩).2[0]?
      = some ⟨[5, 6], .TALKING, some 3⟩ :=
  ⟨rfl, (text_to_speech_tagging_amended 1 2 (fun _ => [])
      ⟨[⟨[5, 6], some 3⟩], [], [], false⟩ rfl).2.2 0 ⟨[5, 6], some 3⟩ rfl
      (by norm_num)⟩

/-! Session-level interaction between the stop control, the TTS worker and
the avatar tick loop, for the cancellation (barge-in) behaviour.
`llm_stop_response` (webrtc_avatar.py lines 86-88) performs `self.tts.stop()`
— clearing the pending message queue (kokoro_tts.py lines 70-72,
openaicompatible_tts.py lines 66-68) — and `self.avatar.stop()` — setting
`stop_infer = True` (wav2lip_avatar.py lines 463-464). The in-flight
`stream_tts` call of the TTS worker thread is not interrupted: `stop()` does
not change `self.state`, so the generator keeps yielding and `stream_tts`
keeps enqueueing chunks onto the avatar's audio-in queue (`ttsPut` events).
Thread interleavings are modelled as an atomic event sequence; messages are
opaque `ℕ` tokens. -/

structure SysState where
  message_queue : List ℕ
  tick : TickState
deriving Repr

inductive SysEv where
  | stopResponse
  | ttsPut (c : InChunk)
  | tick
deriving DecidableEq, Repr

def sys_step (bs cs : ℕ) (melspectrogram : List ℚ → List (List ℚ))
    (st : SysState) : SysEv → SysState × List OutChunk
  | .stopResponse =>
    ({ st with
        message_queue := [],
        tick := { st.tick with stop_infer := true } }, [])
  | .ttsPut c =>
    ({ st with
        tick := { st.tick with
          audio_input_queue := st.tick.audio_input_queue ++ [c] } }, [])
  | .tick =>
    let r := text_to_speech bs cs melspectrogram st.tick
    ({ st with tick := r.1 }, r.2)

def sys_run (bs cs : ℕ) (melspectrogram : List ℚ → List (List ℚ))
    (st : SysState) : List SysEv → SysState × List (List OutChunk)
  | [] => (st, [])
  | e :: es =>
    let r := sys_step bs cs melspectrogram st e
    let rr := sys_run bs cs melspectrogram r.1 es
    (rr.1, r.2 :: rr.2)

/-- The post-tick audio-in queue and, on an empty queue or in flush mode,
the emissions: a tick whose audio-in queue is empty emits only silent
substitutes and leaves the queue empty. -/
theorem text_to_speech_empty_queue (bs cs : ℕ)
    (m : List ℚ → List (List ℚ)) (st : TickState)
    (h : st.audio_input_queue = []) :
    (text_to_speech bs cs m st).2 = List.replicate (bs * 2) (silent_chunk cs)
    ∧ (text_to_speech bs cs m st).1.audio_input_queue = [] := by
  have hq : (tick_pull bs cs st).2.audio_input_queue = [] := by
    unfold tick_pull
    split
    · rfl
    · dsimp only
      rw [h, (tts_pull_loop_spec cs (bs * 2) []).2, List.drop_nil]
  constructor
  · rw [text_to_speech_outputs]
    split
    · rfl
    · rw [h]
      simpa using (tts_pull_loop_spec cs (bs * 2) []).1
  · simp only [text_to_speech]
    split <;> simpa using hq

/-- A flush tick (`stop_infer == True`) emits only silent chunks, clears the
audio-in queue and resets the flag. -/
theorem text_to_speech_flush (bs cs : ℕ)
    (m : List ℚ → List (List ℚ)) (st : TickState)
    (h : st.stop_infer = true) :
    (text_to_speech bs cs m st).2 = List.replicate (bs * 2) (silent_chunk cs)
    ∧ (text_to_speech bs cs m st).1.audio_input_queue = []
    ∧ (text_to_speech bs cs m st).1.stop_infer = false := by
  have hq : (tick_pull bs cs st).2.audio_input_queue = []
      ∧ (tick_pull bs cs st).2.stop_infer = false := by
    unfold tick_pull
    rw [if_pos h]
    exact ⟨rfl, rfl⟩
  refine ⟨?_, ?_, ?_⟩
  · rw [text_to_speech_outputs, if_pos h]
  · simp only [text_to_speech]
    split <;> simpa using hq.1
  · simp only [text_to_speech]
    split <;> simpa using hq.2

/-- In any event sequence with no `ttsPut` (the in-flight synthesis enqueues
nothing), starting from an empty audio-in queue, every emitted chunk is
silent and the queue stays empty. -/
theorem sys_run_silent (bs cs : ℕ) (m : List ℚ → List (List ℚ)) :
    ∀ (evs : List SysEv) (st : SysState),
    st.tick.audio_input_queue = [] →
    (∀ c, SysEv.ttsPut c ∉ evs) →
    (∀ out ∈ (sys_run bs cs m st evs).2, ∀ c ∈ out, c.state = .SILENT)
    ∧ (sys_run bs cs m st evs).1.tick.audio_input_queue = [] := by
  intro evs
  induction evs with
  | nil =>
    intro st hst _
    exact ⟨by intro out hout; simp [sys_run] at hout, by simpa [sys_run] using hst⟩
  | cons e es ih =>
    intro st hst hevs
    have hevs' : ∀ c, SysEv.ttsPut c ∉ es := by
      intro c hc
      exact hevs c (List.mem_cons_of_mem e hc)
    cases e with
    | stopResponse =>
      have hnext := ih { st with
          message_queue := [],
          tick := { st.tick with stop_infer := true } } (by simpa using hst) hevs'
      refine ⟨?_, hnext.2⟩
      intro out hout
      simp only [sys_run, sys_step] at hout
      rcases List.mem_cons.1 hout with h1 | h1
      · subst h1
        intro c hc
        simp at hc
      · exact hnext.1 out h1
    | ttsPut c =>
      exact absurd (List.mem_cons_self _ _) (hevs c)
    | tick =>
      have hemp := text_to_speech_empty_queue bs cs m st.tick hst
      have hnext := ih { st with tick := (text_to_speech bs cs m st.tick).1 }
        (by simpa using hemp.2) hevs'
      refine ⟨?_, hnext.2⟩
      intro out hout
      simp only [sys_run, sys_step] at hout
      rcases List.mem_cons.1 hout with h1 | h1
      · subst h1
        intro c hc
        rw [hemp.1] at hc
        rw [List.eq_of_mem_replicate hc]
        rfl
      · exact hnext.1 out h1

/-- C6 counterexample: `batch_size = 1`, `chunk_size = 1`. Mid-utterance
(three queued speech chunks, one pending message), `stop()` is called
(event 0), the flush tick runs (event 1, emitting only silent chunks), then
the still-running `stream_tts` of the interrupted utterance enqueues one
more chunk (event 2), and the next tick (event 3) dequeues it and emits it
tagged `TALKING` — refuting the claim that no TALKING-tagged chunk is
emitted after the flush tick for the remainder of the interrupted
utterance. -/
theorem cancellation_tail_talking_cex :
    (sys_run 1 1 (fun _ => [])
        ⟨[5], ⟨[⟨[1], some 7⟩, ⟨[1], some 7⟩, ⟨[1], some 7⟩], [], [], false⟩⟩
        [.stopResponse, .tick, .ttsPut ⟨[1], some 7⟩, .tick]).2
      = [[], [silent_chunk 1, silent_chunk 1], [],
         [⟨[1], .TALKING, some 7⟩, silent_chunk 1]]
    ∧ (⟨[1], .TALKING, some 7⟩ : OutChunk).state = .TALKING := by
  constructor
  · rfl
  · rfl

/-- C6 amended: calling `stop()` clears the message queue immediately; the
next tick is a flush tick that emits only `SILENT` chunks and empties the
audio-in queue; and every chunk emitted from then on is `SILENT` *provided
the in-flight synthesis enqueues nothing further* — chunks that the
still-running `stream_tts` of the interrupted utterance enqueues after the
flush tick are dequeued and emitted tagged `TALKING` by later ticks. -/
theorem cancellation_amended (bs cs : ℕ) (m : List ℚ → List (List ℚ))
    (st : SysState) (evs : List SysEv)
    (hevs : ∀ c, SysEv.ttsPut c ∉ evs) :
    (sys_step bs cs m st .stopResponse).1.message_queue = []
    ∧ (∀ c ∈ (sys_step bs cs m
          (sys_step bs cs m st .stopResponse).1 .tick).2, c.state = .SILENT)
    ∧ (sys_step bs cs m
        (sys_step bs cs m st .stopResponse).1 .tick).1.tick.audio_input_queue
      = []
    ∧ (∀ out ∈ (sys_run bs cs m
          (sys_step bs cs m
            (sys_step bs cs m st .stopResponse).1 .tick).1 evs).2,
        ∀ c ∈ out, c.state = .SILENT) := by
  have hflush := text_to_speech_flush bs cs m
    (sys_step bs cs m st .stopResponse).1.tick rfl
  refine ⟨rfl, ?_, ?_, ?_⟩
  · intro c hc
    have h2 : (sys_step bs cs m (sys_step bs cs m st .stopResponse).1 .tick).2
        = (text_to_speech bs cs m
            (sys_step bs cs m st .stopResponse).1.tick).2 := rfl
    rw [h2, hflush.1] at hc
    rw [List.eq_of_mem_replicate hc]
    rfl
  · exact hflush.2.1
  · exact (sys_run_silent bs cs m evs _ hflush.2.1 hevs).1

/-- Witness for `cancellation_amended` at a concrete mid-utterance state and
a `ttsPut`-free continuation. -/
theorem cancellation_amended_witness :
    (∀ c, SysEv.ttsPut c ∉ ([.tick] : List SysEv))
    ∧ (sys_step 1 1 (fun _ => [])
        ⟨[5], ⟨[⟨[1], some 7⟩], [], [], false⟩⟩ .stopResponse).1.message_queue
      = [] :=
  ⟨by intro c hc; simp at hc,
    (cancellation_amended 1 1 (fun _ => [])
      ⟨[5], ⟨[⟨[1], some 7⟩], [], [], false⟩⟩ [.tick]
      (by intro c hc; simp at hc)).1⟩

/-! Batched inference stage, frame compositor and transport pump, from
`Wav2lipAvatar.lip_sync` (wav2lip_avatar.py lines 374-417),
`Wav2lipAvatar.merge_video_audio` (lines 419-454) and `WebRTCAvatar.webrtc`
(edge-ai-studio webrtc_avatar.py lines 93-117). -/

/-- The result of `reflection` is always a valid frame-array index. -/
theorem reflection_lt {size : ℕ} (index : ℕ) (hN : 0 < size) :
    reflection size index < size := by
  unfold reflection
  have hmod : index % size < size := Nat.mod_lt index hN
  by_cases h : (index / size) % 2 = 0 <;> simp [h] <;> omega

/-- Frames are lists of rows of byte values (`np.uint8` entries of a
`cv2` image). -/
abbrev Image : Type := List (List ℕ)

/-- One `(res_frame, idx, audio_frames)` triple on `result_frame_queue`.
`P` is the type of raw model-output pixel arrays (external). -/
structure ResultFrame (P : Type) where
  pixels : Option P
  frame_index : ℕ
  paired : List OutChunk

/-- One loop body of `Wav2lipAvatar.lip_sync` after a mel batch was dequeued
(lines 386-417): dequeue `batch_size * 2` audio tuples; when none is tagged
`TALKING`, skip inference and emit `batch_size` pixel-less result frames at
the reflected indices, advancing the index once per slot; otherwise call
`_run_lipsync_inference` (the external model pipeline — face gathering,
masking, normalisation and the batched model call, lines 240-298 —
abstracted as `infer`, receiving the mel batch and the start index) and emit
one result frame per predicted image. -/
def lip_sync_tick (P : Type) (bs N : ℕ)
    (infer : List (List (List ℚ)) → ℕ → List P)
    (mel_batch : List (List (List ℚ))) (audio_frames : List OutChunk)
    (index : ℕ) : List (ResultFrame P) × ℕ :=
  if audio_frames.all (fun c => c.state != AudioState.TALKING) then
    ((List.range bs).map (fun i =>
      ⟨none, reflection N (index + i), (audio_frames.drop (i * 2)).take 2⟩),
      index + bs)
  else
    let pred := infer mel_batch index
    (pred.enum.map (fun p =>
      ⟨some p.2, reflection N (index + p.1),
        (audio_frames.drop (p.1 * 2)).take 2⟩),
      index + pred.length)

/-- A frame handed to `combined_frame_queue` either aliases a stored base
frame (`combine_frame = self.cv_frames[idx]`, the silence path, no copy) or
is a freshly built image (`copy.deepcopy` plus paste, the talking path). -/
inductive FrameRef where
  | base (i : ℕ)
  | fresh (img : Image)
deriving DecidableEq, Repr

def resolve_frame (store : List Image) : FrameRef → Image
  | .base i => store.getD i []
  | .fresh img => img

/-- Outcome of one `merge_video_audio` loop body: a frame put on
`combined_frame_queue`, a silent `continue` (the caught resize failure), or
an uncaught exception ending the worker (the two-element unpacking of
`audio_frame[:2]` failing). -/
inductive MergeOut where
  | emit (f : FrameRef) (audio : List OutChunk)
  | skip
  | crash
deriving DecidableEq

/-- `combine_frame[y1:y2, x1:x2] = res_frame`. -/
def set_region (img : Image) (y1 y2 x1 x2 : ℕ) (crop : Image) : Image :=
  img.mapIdx (fun y row =>
    if y1 ≤ y ∧ y < y2 then
      row.mapIdx (fun x px =>
        if x1 ≤ x ∧ x < x2 then (crop.getD (y - y1) []).getD (x - x1) px
        else px)
    else row)

/-- One loop body of `Wav2lipAvatar.merge_video_audio` (lines 428-454) on a
dequeued result frame. `resize` models `cv2.resize(res_frame.astype(...))`
(external, may raise — `none`); `text_wrapper` models the caption overlay
(avatar.py lines 13-105, external rendering; applied when the leading
chunk's metadata is present). The second component is the log output of the
body: the bare `except: continue` at lines 439-440 writes nothing. -/
def merge_video_audio_step (P : Type)
    (resize : P → ℕ × ℕ → Option Image)
    (text_wrapper : Image → ℕ → Image)
    (cv_frames : List Image) (coords_list : List (ℕ × ℕ × ℕ × ℕ))
    (rf : ResultFrame P) : MergeOut × List String :=
  match rf.paired with
  | first_af :: second_af :: _ =>
    if first_af.state ≠ AudioState.TALKING
        ∧ second_af.state ≠ AudioState.TALKING then
      (.emit (.base rf.frame_index) rf.paired, [])
    else
      match coords_list.getD rf.frame_index (0, 0, 0, 0) with
      | (y1, y2, x1, x2) =>
        match rf.pixels.bind (fun p => resize p (x2 - x1, y2 - y1)) with
        | none => (.skip, [])
        | some res =>
          let combine0 :=
            set_region (cv_frames.getD rf.frame_index []) y1 y2 x1 x2 res
          let combine :=
            match first_af.metadata with
            | some meta => text_wrapper combine0 meta
            | none => combine0
          (.emit (.fresh combine) rf.paired, [])
  | _ => (.crash, [])

/-- The compositor worker over a queue of result frames: `skip` continues
with the next frame, `crash` terminates the worker. -/
def merge_loop (P : Type) (resize : P → ℕ × ℕ → Option Image)
    (text_wrapper : Image → ℕ → Image)
    (cv_frames : List Image) (coords_list : List (ℕ × ℕ × ℕ × ℕ)) :
    List (ResultFrame P) → List (FrameRef × List OutChunk)
  | [] => []
  | rf :: rest =>
    match (merge_video_audio_step P resize text_wrapper cv_frames
        coords_list rf).1 with
    | .emit f a =>
      (f, a) :: merge_loop P resize text_wrapper cv_frames coords_list rest
    | .skip => merge_loop P resize text_wrapper cv_frames coords_list rest
    | .crash => []

/-- `image[0, :] &= 0xFE` on a bgr24 ndarray clears the least-significant
bit of every byte of row 0. -/
def clear_row0_lsb : Image → Image
  | [] => []
  | r :: rs => r.map (fun b => b &&& 0xFE) :: rs

/-- One iteration of `WebRTCAvatar.webrtc` (webrtc_avatar.py lines 93-106)
on a dequeued combined frame: the `&=` executes in place on the ndarray the
compositor handed over, so when that frame aliases a stored base frame
(`FrameRef.base`) the store itself is updated. Returns the updated store
and the image sent to the video track. -/
def webrtc_pump_step (store : List Image) : MergeOut → List Image × Option Image
  | .emit f _ =>
    let img := clear_row0_lsb (resolve_frame store f)
    (match f with
      | .base i => store.set i img
      | .fresh _ => store,
      some img)
  | _ => (store, none)

/-- Lists of length two are two-element lists. -/
theorem list_length_two {α : Type} {l : List α} (h : l.length = 2) :
    ∃ a b, l = [a, b] := by
  match l, h with
  | [a, b], _ => exact ⟨a, b, rfl⟩

/-- C2. In a tick where none of the `batchSize * 2` dequeued audio tuples
carries `TALKING` state, inference is skipped entirely (the result does not
depend on the inference function); for each of the `batchSize` output slots
`i` a result frame with `pixels = none`, `frameIndex = reflect(N, idx + i)`
and `pairedAudioChunks = chunks[2i:2i+2]` is emitted with the index
advancing once per slot; and each such silent result frame makes the
compositor emit the stored base frame `fullFrames[reflect(N, idx + i)]`
itself (byte-for-byte the stored array). -/
theorem lip_sync_silent_tick (P : Type) (bs N : ℕ) (hN : 0 < N)
    (infer infer2 : List (List (List ℚ)) → ℕ → List P)
    (mel_batch : List (List (List ℚ))) (audio_frames : List OutChunk)
    (index : ℕ)
    (hlen : audio_frames.length = bs * 2)
    (hsil : ∀ c ∈ audio_frames, c.state ≠ AudioState.TALKING)
    (resize : P → ℕ × ℕ → Option Image) (text_wrapper : Image → ℕ → Image)
    (cv_frames : List Image) (coords_list : List (ℕ × ℕ × ℕ × ℕ)) :
    (lip_sync_tick P bs N infer mel_batch audio_frames index).1.length = bs
    ∧ (lip_sync_tick P bs N infer mel_batch audio_frames index).2 = index + bs
    ∧ (∀ i, i < bs →
        (lip_sync_tick P bs N infer mel_batch audio_frames index).1[i]?
          = some ⟨none, reflection N (index + i),
              (audio_frames.drop (i * 2)).take 2⟩)
    ∧ lip_sync_tick P bs N infer mel_batch audio_frames index
        = lip_sync_tick P bs N infer2 mel_batch audio_frames index
    ∧ (∀ f ∈ (lip_sync_tick P bs N infer mel_batch audio_frames index).1,
        merge_video_audio_step P resize text_wrapper cv_frames coords_list f
          = (.emit (.base f.frame_index) f.paired, [])
        ∧ resolve_frame cv_frames (.base f.frame_index)
          = cv_frames.getD f.frame_index []
        ∧ f.frame_index < N) := by
  have hall : audio_frames.all (fun c => c.state != AudioState.TALKING) = true := by
    rw [List.all_eq_true]
    intro c hc
    simpa using hsil c hc
  have hsilent : lip_sync_tick P bs N infer mel_batch audio_frames index
      = ((List.range bs).map (fun i =>
          ⟨none, reflection N (index + i), (audio_frames.drop (i * 2)).take 2⟩),
        index + bs) := by
    unfold lip_sync_tick
    rw [if_pos hall]
  have hsilent2 : lip_sync_tick P bs N infer2 mel_batch audio_frames index
      = ((List.range bs).map (fun i =>
          ⟨none, reflection N (index + i), (audio_frames.drop (i * 2)).take 2⟩),
        index + bs) := by
    unfold lip_sync_tick
    rw [if_pos hall]
  refine ⟨?_, ?_, ?_, ?_, ?_⟩
  · rw [hsilent]
    simp
  · rw [hsilent]
  · intro i hi
    rw [hsilent]
    simp only [List.getElem?_map]
    rw [List.getElem?_range hi]
    rfl
  · rw [hsilent, hsilent2]
  · intro f hf
    rw [hsilent] at hf
    obtain ⟨i, hi, rfl⟩ := List.mem_map.1 hf
    have hiran : i < bs := List.mem_range.1 hi
    have hplen : ((audio_frames.drop (i * 2)).take 2).length = 2 := by
      rw [List.length_take, List.length_drop, hlen]
      omega
    obtain ⟨a, b, hab⟩ := list_length_two hplen
    have hmem : ∀ c ∈ (audio_frames.drop (i * 2)).take 2, c ∈ audio_frames :=
      fun c hc => List.mem_of_mem_drop (List.mem_of_mem_take hc)
    have ha : a.state ≠ AudioState.TALKING := by
      apply hsil
      apply hmem
      rw [hab]
      simp
    have hb : b.state ≠ AudioState.TALKING := by
      apply hsil
      apply hmem
      rw [hab]
      simp
    refine ⟨?_, rfl, reflection_lt (index + i) hN⟩
    unfold merge_video_audio_step
    rw [hab]
    dsimp only
    rw [if_pos ⟨ha, hb⟩]

/-- Witness for `lip_sync_silent_tick`: `bs = 1`, `N = 1`, an all-silent
pair of chunks, two distinct inference functions. -/
theorem lip_sync_silent_tick_witness :
    0 < 1
    ∧ lip_sync_tick ℕ 1 1 (fun _ _ => []) [] [silent_chunk 1, silent_chunk 1] 0
      = lip_sync_tick ℕ 1 1 (fun _ _ => [0]) [] [silent_chunk 1, silent_chunk 1]
          0 :=
  ⟨by decide,
    (lip_sync_silent_tick ℕ 1 1 (by decide) (fun _ _ => []) (fun _ _ => [0])
      [] [silent_chunk 1, silent_chunk 1] 0 (by decide)
      (by intro c hc; simp at hc; subst hc; decide)
      (fun _ _ => none) (fun i _ => i) [] []).2.2.2.1⟩

/-- C9 (code defect). The silence path of `merge_video_audio` passes
`self.cv_frames[idx]` by reference (line 430, no copy — unlike the talking
path's `copy.deepcopy` at line 433), and the transport pump then executes
`image[0, :] &= 0xFE` (webrtc_avatar.py line 104) in place, clearing the
low bit of every byte of row 0 of the *stored* base frame: after one silent
result frame the base-frame store is modified, contradicting the read-only
invariant. A fresh (talking-path) frame leaves the store unchanged. -/
theorem silent_path_mutates_base_frames :
    (merge_video_audio_step ℕ (fun _ _ => none) (fun i _ => i)
        [[[255, 254]]] []
        ⟨none, 0, [⟨[0], .SILENT, none⟩, ⟨[0], .SILENT, none⟩]⟩).1
      = .emit (.base 0) [⟨[0], .SILENT, none⟩, ⟨[0], .SILENT, none⟩]
    ∧ (webrtc_pump_step [[[255, 254]]] (.emit (.base 0) [])).1 = [[[254, 254]]]
    ∧ (webrtc_pump_step [[[255, 254]]] (.emit (.base 0) [])).1 ≠ [[[255, 254]]]
    ∧ (webrtc_pump_step [[[255, 254]]]
        (.emit (.fresh [[255, 254]]) [])).1 = [[[255, 254]]] := by
  refine ⟨rfl, rfl, ?_, rfl⟩
  decide

/-- C10 counterexample: a talking result frame whose predicted crop fails to
resize (the `except` branch at wav2lip_avatar.py lines 439-440) is skipped —
but the bare `except: continue` logs nothing, so the log output of the body
is empty, refuting the claim's "logs it". -/
theorem resize_failure_not_logged_cex :
    (merge_video_audio_step ℕ (fun _ _ => none) (fun i _ => i)
        [[[1]]] [(0, 1, 0, 1)]
        ⟨some 0, 0, [⟨[1], .TALKING, none⟩, ⟨[0], .SILENT, none⟩]⟩).1
      = .skip
    ∧ (merge_video_audio_step ℕ (fun _ _ => none) (fun i _ => i)
        [[[1]]] [(0, 1, 0, 1)]
        ⟨some 0, 0, [⟨[1], .TALKING, none⟩, ⟨[0], .SILENT, none⟩]⟩).2
      = ([] : List String) :=
  ⟨rfl, rfl⟩

/-- C10 amended: for every result frame on the talking path whose predicted
crop fails to resize, the compositor catches the failure, skips that frame
(emits no composite frame for it) and continues processing subsequent
frames — the failure is never fatal to the session — but it does not log
the failure (the `except: continue` is bare). -/
theorem merge_resize_skip_amended (P : Type)
    (resize : P → ℕ × ℕ → Option Image) (text_wrapper : Image → ℕ → Image)
    (cv_frames : List Image) (coords_list : List (ℕ × ℕ × ℕ × ℕ))
    (rf : ResultFrame P) (p : P) (hp : rf.pixels = some p)
    (a b : OutChunk) (rest : List OutChunk) (hpair : rf.paired = a :: b :: rest)
    (htalk : a.state = AudioState.TALKING ∨ b.state = AudioState.TALKING)
    (hfail : ∀ dims, resize p dims = none)
    (post : List (ResultFrame P)) :
    (merge_video_audio_step P resize text_wrapper cv_frames coords_list rf).1
      = .skip
    ∧ (merge_video_audio_step P resize text_wrapper cv_frames coords_list rf).2
      = []
    ∧ merge_loop P resize text_wrapper cv_frames coords_list (rf :: post)
      = merge_loop P resize text_wrapper cv_frames coords_list post := by
  have hcond : ¬ (a.state ≠ AudioState.TALKING
      ∧ b.state ≠ AudioState.TALKING) := by
    rcases htalk with h | h
    · exact fun hc => hc.1 h
    · exact fun hc => hc.2 h
  have hstep : merge_video_audio_step P resize text_wrapper cv_frames
      coords_list rf = (.skip, []) := by
    unfold merge_video_audio_step
    rw [hpair]
    dsimp only
    rw [if_neg hcond, hp]
    simp only [Option.some_bind, hfail]
  refine ⟨by rw [hstep], by rw [hstep], ?_⟩
  simp only [merge_loop, hstep]

/-- Witness for `merge_resize_skip_amended` at a concrete failing frame. -/
theorem merge_resize_skip_amended_witness :
    (∀ dims, (fun (_ : ℕ) (_ : ℕ × ℕ) => (none : Option Image)) 0 dims = none)
    ∧ merge_loop ℕ (fun _ _ => none) (fun i _ => i) [[[1]]] [(0, 1, 0, 1)]
        [⟨some 0, 0, [⟨[1], .TALKING, none⟩, ⟨[0], .SILENT, none⟩]⟩]
      = [] :=
  ⟨fun _ => rfl,
    (merge_resize_skip_amended ℕ (fun _ _ => none) (fun i _ => i)
      [[[1]]] [(0, 1, 0, 1)]
      ⟨some 0, 0, [⟨[1], .TALKING, none⟩, ⟨[0], .SILENT, none⟩]⟩ 0 rfl
      ⟨[1], .TALKING, none⟩ ⟨[0], .SILENT, none⟩ [] rfl (Or.inl rfl)
      (fun _ => rfl) []).2.2⟩

/-! Frame-rate pacer, from edge-ai-studio `modules/base/webrtc.py`:
`AudioTrack.recv` (lines 29-48) and `VideoTrack.recv` (lines 60-79). Both
share one structure; the frame period `ptime` (`AUDIO_PTIME` / `VIDEO_PTIME`)
and the per-frame timestamp increment `ts_inc = int(PTIME * CLOCK)` are
parameters. A call with no `timestamp` attribute yet (the first call)
records `start_time = time.time()` and `timestamp = 0` and returns at once
(`frame_count` stays 0); every later call increments `frame_count`, computes
`wait = start_time + frame_count * ptime - now` and sleeps it off when
positive, returning the frame at `max(now, start_time + frame_count *
ptime)`. -/

structure TrackState where
  start_time : Option ℚ
  timestamp : ℤ
  frame_count : ℕ
deriving DecidableEq, Repr

/-- One `recv()` call at wall-clock time `now`: returns the delivery time of
the dequeued frame and the successor state. -/
def track_recv (ptime : ℚ) (ts_inc : ℤ) (s : TrackState) (now : ℚ) :
    ℚ × TrackState :=
  match s.start_time with
  | none => (now, ⟨some now, 0, s.frame_count⟩)
  | some st0 =>
    let fc := s.frame_count + 1
    let wait := st0 + fc * ptime - now
    (if 0 < wait then now + wait else now, ⟨some st0, s.timestamp + ts_inc, fc⟩)

/-- Successive `recv()` calls at the given wall-clock times; returns the
delivery times. -/
def track_recv_run (ptime : ℚ) (ts_inc : ℤ) (s : TrackState) :
    List ℚ → List ℚ
  | [] => []
  | now :: rest =>
    let r := track_recv ptime ts_inc s now
    r.1 :: track_recv_run ptime ts_inc r.2 rest

/-- Lower bound for deliveries from a started track: the `k`-th subsequent
delivery happens no earlier than `start + (frame_count + k + 1) * ptime`. -/
theorem track_recv_run_lb (ptime : ℚ) (hp : 0 ≤ ptime) (ts_inc : ℤ)
    (st0 : ℚ) :
    ∀ (nows : List ℚ) (ts : ℤ) (fc : ℕ) (k : ℕ) (d : ℚ),
    (track_recv_run ptime ts_inc ⟨some st0, ts, fc⟩ nows)[k]? = some d →
    st0 + ((fc : ℚ) + k + 1) * ptime ≤ d := by
  intro nows
  induction nows with
  | nil =>
    intro ts fc k d h
    simp [track_recv_run] at h
  | cons now rest ih =>
    intro ts fc k d h
    cases k with
    | zero =>
      simp only [track_recv_run, track_recv, List.getElem?_cons_zero,
        Option.some.injEq] at h
      subst h
      split
      · rename_i hw
        push_cast
        linarith
      · rename_i hw
        push_cast at hw ⊢
        linarith
    | succ k =>
      simp only [track_recv_run, track_recv, List.getElem?_cons_succ] at h
      have hrec := ih (ts + ts_inc) (fc + 1) k d h
      push_cast at hrec ⊢
      linarith

/-- C7. The pacer's `recv()`: on its first call it captures
`start_time = now`, initialises `timestamp = 0`, leaves `frame_count = 0`
and returns without waiting; on every subsequent call it suspends until
`start_time + frame_count * ptime ≤ now` (with `frame_count` incremented
first) before returning; hence over any run, frame `n` is never delivered
before `start_time + n * ptime`. The video period is 0.040 s on a 90 kHz
clock and the audio period 0.020 s on a 16 kHz clock. -/
theorem track_recv_pacing (ptime : ℚ) (hp : 0 ≤ ptime) (ts_inc : ℤ)
    (n0 : ℚ) (ns : List ℚ) :
    track_recv ptime ts_inc ⟨none, 0, 0⟩ n0 = (n0, ⟨some n0, 0, 0⟩)
    ∧ (∀ (st0 : ℚ) (ts : ℤ) (fc : ℕ) (now : ℚ),
        st0 + ((fc : ℚ) + 1) * ptime
          ≤ (track_recv ptime ts_inc ⟨some st0, ts, fc⟩ now).1
        ∧ now ≤ (track_recv ptime ts_inc ⟨some st0, ts, fc⟩ now).1
        ∧ (track_recv ptime ts_inc ⟨some st0, ts, fc⟩ now).2.frame_count
          = fc + 1)
    ∧ (∀ (k : ℕ) (d : ℚ),
        (track_recv_run ptime ts_inc ⟨none, 0, 0⟩ (n0 :: ns))[k]? = some d →
        n0 + (k : ℚ) * ptime ≤ d)
    ∧ VIDEO_PTIME = 1 / 25 ∧ AUDIO_PTIME = 1 / 50
    ∧ VIDEO_CLOCK_RATE = 90000 ∧ AUDIO_SAMPLE_RATE = 16000 := by
  refine ⟨rfl, ?_, ?_, by norm_num [VIDEO_PTIME], by norm_num [AUDIO_PTIME],
    rfl, rfl⟩
  · intro st0 ts fc now
    refine ⟨?_, ?_, rfl⟩
    · simp only [track_recv]
      split
      · rename_i hw
        push_cast
        linarith
      · rename_i hw
        push_cast at hw ⊢
        linarith
    · simp only [track_recv]
      split
      · rename_i hw
        linarith
      · linarith
  · intro k d h
    cases k with
    | zero =>
      simp only [track_recv_run, track_recv, List.getElem?_cons_zero,
        Option.some.injEq] at h
      subst h
      simp
    | succ k =>
      simp only [track_recv_run, track_recv, List.getElem?_cons_succ] at h
      have hrec := track_recv_run_lb ptime hp ts_inc n0 ns 0 0 k d h
      push_cast at hrec ⊢
      linarith

/-- Witness for `track_recv_pacing` at the video period with two calls. -/
theorem track_recv_pacing_witness :
    (0 : ℚ) ≤ VIDEO_PTIME
    ∧ track_recv VIDEO_PTIME 3600 ⟨none, 0, 0⟩ 0 = (0, ⟨some 0, 0, 0⟩) :=
  ⟨by norm_num [VIDEO_PTIME],
    (track_recv_pacing VIDEO_PTIME (by norm_num [VIDEO_PTIME]) 3600 0 [0]).1⟩

/-! Bounded blocking queues (`queue.Queue(maxsize)`) and the capacities
fixed in `Wav2lipAvatar.__init__` (wav2lip_avatar.py lines 147-153):
`result_frame_queue = Queue(self.batch_size * 2)` and
`audio_feature_queue = Queue(2)`; `put` on a full queue blocks the caller
without changing the queue, `get` pops the front. -/

structure BoundedQueue (α : Type) where
  cap : ℕ
  items : List α
deriving Repr

def BoundedQueue.put {α : Type} (q : BoundedQueue α) (a : α) :
    Option (BoundedQueue α) :=
  if q.items.length < q.cap then some ⟨q.cap, q.items ++ [a]⟩ else none

def BoundedQueue.get {α : Type} (q : BoundedQueue α) :
    Option (α × BoundedQueue α) :=
  match q.items with
  | [] => none
  | x :: xs => some (x, ⟨q.cap, xs⟩)

/-- The observable transitions of one queue: a successful `put`, a blocked
`put` (the producer suspends, the queue is unchanged, the element is
retained by the producer), and a successful `get`. -/
inductive QueueStep (α : Type) : BoundedQueue α → BoundedQueue α → Prop where
  | put_ok {q : BoundedQueue α} {a : α} {q' : BoundedQueue α} :
      q.put a = some q' → QueueStep α q q'
  | put_blocked {q : BoundedQueue α} {a : α} :
      q.put a = none → QueueStep α q q
  | get_ok {q : BoundedQueue α} {x : α} {q' : BoundedQueue α} :
      q.get = some (x, q') → QueueStep α q q'

/-- States reachable from the freshly constructed empty queue of the given
capacity. -/
def QueueReachable (α : Type) (cap : ℕ) (q : BoundedQueue α) : Prop :=
  Relation.ReflTransGen (QueueStep α) ⟨cap, []⟩ q

/-- From `Wav2lipAvatar.__init__`: `self.audio_feature_queue = Queue(2)`. -/
def audio_feature_queue_cap : ℕ := 2

/-- From `Wav2lipAvatar.__init__`:
`self.result_frame_queue = Queue(self.batch_size * 2)`. -/
def result_frame_queue_cap (batch_size : ℕ) : ℕ := batch_size * 2

/-- Every reachable queue state keeps its construction capacity and holds at
most that many elements. -/
theorem queue_reachable_inv (α : Type) (cap : ℕ) (q : BoundedQueue α)
    (h : QueueReachable α cap q) : q.cap = cap ∧ q.items.length ≤ cap := by
  induction h with
  | refl => exact ⟨rfl, by simp⟩
  | tail hsteps hstep ih =>
    cases hstep with
    | put_ok hput =>
      rename_i qmid a q'
      unfold BoundedQueue.put at hput
      split at hput
      · rename_i hlt
        simp only [Option.some.injEq] at hput
        subst hput
        refine ⟨ih.1, ?_⟩
        simp only [List.length_append, List.length_singleton]
        omega
      · exact absurd hput (by simp)
    | put_blocked hput => exact ih
    | get_ok hget =>
      rename_i qmid x q'
      unfold BoundedQueue.get at hget
      match hq : qmid.items with
      | [] =>
        rw [hq] at hget
        exact absurd hget (by simp)
      | y :: ys =>
        rw [hq] at hget
        simp only [Option.some.injEq, Prod.mk.injEq] at hget
        obtain ⟨-, hq'⟩ := hget
        subst hq'
        have hlen : qmid.items.length = ys.length + 1 := by rw [hq]; rfl
        have h2 := ih.2
        exact ⟨ih.1, by simp only []; omega⟩

/-- C8. The mel-feature queue has capacity exactly 2 and the result-frame
queue capacity exactly `2 * batchSize`; a `put` on a full queue blocks
(returns no successor, leaving the queue unchanged and dropping nothing), a
`put` on a non-full queue appends exactly the offered element, a blocked
`put` succeeds again once a `get` drains an element; and every reachable
state of either queue holds at most its capacity. -/
theorem queue_bounds (α : Type) (bs : ℕ) (q1 q2 : BoundedQueue α)
    (h1 : QueueReachable α audio_feature_queue_cap q1)
    (h2 : QueueReachable α (result_frame_queue_cap bs) q2) :
    audio_feature_queue_cap = 2
    ∧ result_frame_queue_cap bs = 2 * bs
    ∧ q1.items.length ≤ 2
    ∧ q2.items.length ≤ 2 * bs
    ∧ (∀ (q : BoundedQueue α) (a : α), q.items.length = q.cap →
        q.put a = none)
    ∧ (∀ (q : BoundedQueue α) (a : α) (q' : BoundedQueue α),
        q.put a = some q' → q'.items = q.items ++ [a] ∧ q'.cap = q.cap)
    ∧ (∀ (q : BoundedQueue α) (a x : α) (q' : BoundedQueue α), 0 < q.cap →
        q.items.length = q.cap → q.get = some (x, q') →
        q'.put a = some ⟨q.cap, q'.items ++ [a]⟩) := by
  refine ⟨rfl, Nat.mul_comm bs 2,
    le_of_le_of_eq (queue_reachable_inv α _ q1 h1).2 rfl,
    le_of_le_of_eq (queue_reachable_inv α _ q2 h2).2 (Nat.mul_comm bs 2),
    ?_, ?_, ?_⟩
  · intro q a hfull
    unfold BoundedQueue.put
    rw [if_neg (by omega)]
  · intro q a q' hput
    unfold BoundedQueue.put at hput
    split at hput
    · simp only [Option.some.injEq] at hput
      subst hput
      exact ⟨rfl, rfl⟩
    · exact absurd hput (by simp)
  · intro q a x q' hcap hfull hget
    unfold BoundedQueue.get at hget
    match hq : q.items with
    | [] =>
      rw [hq] at hget
      exact absurd hget (by simp)
    | y :: ys =>
      rw [hq] at hget
      simp only [Option.some.injEq, Prod.mk.injEq] at hget
      obtain ⟨-, hq'⟩ := hget
      subst hq'
      have hlen : ys.length + 1 = q.items.length := by rw [hq]; rfl
      unfold BoundedQueue.put
      rw [if_pos (by simp only []; omega)]

/-- Witness for `queue_bounds`: the two freshly constructed queues at
`batch_size = 3`. -/
theorem queue_bounds_witness :
    QueueReachable ℕ audio_feature_queue_cap ⟨audio_feature_queue_cap, []⟩
    ∧ audio_feature_queue_cap = 2 ∧ result_frame_queue_cap 3 = 2 * 3 :=
  ⟨Relation.ReflTransGen.refl,
    (queue_bounds ℕ 3 ⟨audio_feature_queue_cap, []⟩
      ⟨result_frame_queue_cap 3, []⟩ Relation.ReflTransGen.refl
      Relation.ReflTransGen.refl).1,
    (queue_bounds ℕ 3 ⟨audio_feature_queue_cap, []⟩
      ⟨result_frame_queue_cap 3, []⟩ Relation.ReflTransGen.refl
      Relation.ReflTransGen.refl).2.1⟩

end EdgeLipsync
